import Mathlib

/-!
Verification of the PAL platform DRBG entropy service
(pal_plat_drbg.h: pal_plat_DRBGInit, pal_plat_DRBGDestroy,
pal_plat_osRandomBuffer, pal_plat_osRandomBuffer_blocking).

The repository ships only the header declarations of these functions; the
platform implementations live outside the provided sources.  Following the
design document, the service is modelled here as a shallow embedding: the
hardware TRNG is an external collaborator represented by a trace of fetch
responses, buffers are lists of bytes, and the blocking fill is the retry
loop composed on top of the single-fetch non-blocking attempt.
-/

namespace EntropyService

/-- Modelled from the spec: the status/error taxonomy of the service
(PAL_SUCCESS, PAL_ERR_CREATION_FAILED, PAL_ERR_RTOS_TRNG_PARTIAL_DATA, the
not-initialized, hardware-failure, no-entropy and retry-exhausted outcomes
of the design document).  The concrete numeric codes are not in the header,
so statuses are an inductive type. -/
inductive Status where
  | Success
  | NotInitialized
  | CreationFailed
  | PartialData
  | Empty
  | HardwareFailure (code : Int)
  | RetryExhausted
deriving DecidableEq, Repr

/-- Modelled from the spec: the process-wide lifecycle state
(ServiceState of the design document). -/
inductive ServiceState where
  | Uninitialized
  | Ready
  | Destroyed
deriving DecidableEq, Repr

/-- Modelled from the spec: one response of the external
HardwareEntropySource.fetch call: either a reported byte count together
with the bytes the hardware actually produced, or a hardware error code.
The reported count may disagree with the data (a corrupted hardware
contract), which the service must defend against. -/
inductive HwResult where
  | ok (n : Nat) (data : List Nat)
  | err (code : Int)
deriving DecidableEq, Repr

/-- Modelled from the spec: the FetchOutcome variant produced by one
non-blocking attempt: Full, Partial, Empty or HardwareFailure. -/
inductive FetchOutcome where
  | Full (n : Nat)
  | Partial (n : Nat)
  | Empty
  | HardwareFailure (code : Int)
deriving DecidableEq, Repr

/-- Modelled from the spec: the error code attached to the HardwareFailure
outcome raised when the hardware reports more bytes than the requested
capacity (contract violation); the header fixes no numeric value. -/
def contractViolationCode : Int := -1

/-- Writing a chunk of bytes into a buffer at a given offset; bytes before
the offset and bytes past the end of the chunk are untouched. -/
def writeAt (buf : List Nat) (off : Nat) (chunk : List Nat) : List Nat :=
  buf.take off ++ chunk ++ buf.drop (off + chunk.length)

/-- Modelled from the spec: NonBlockingFill.attempt.  Classifies one
hardware response against the remaining capacity and writes at most the
reported bytes into the destination at the given offset.  A reported size
larger than the remaining capacity is a HardwareFailure outcome (defensive
clamp), never a truncated acceptance. -/
def attempt (buf : List Nat) (off cap : Nat) (r : HwResult) :
    FetchOutcome × List Nat :=
  match r with
  | .err code => (.HardwareFailure code, buf)
  | .ok n data =>
      if cap < n then (.HardwareFailure contractViolationCode, buf)
      else if n = 0 then (.Empty, buf)
      else if n = cap then (.Full n, writeAt buf off (data.take n))
      else (.Partial n, writeAt buf off (data.take n))

/-- Modelled from the spec: one non-blocking attempt against the hardware
trace at fetch index idx; returns the outcome, the updated buffer, and the
next fetch index (the attempt consumes exactly one hardware fetch). -/
def attemptAt (hw : Nat → HwResult) (idx : Nat) (buf : List Nat)
    (off cap : Nat) : FetchOutcome × List Nat × Nat :=
  ((attempt buf off cap (hw idx)).1, (attempt buf off cap (hw idx)).2, idx + 1)

/-- Result of the blocking retry loop: final status, buffer contents,
bytes written, and the number of hardware fetches performed. -/
structure LoopResult where
  status : Status
  buf : List Nat
  written : Nat
  calls : Nat
deriving DecidableEq, Repr

theorem attempt_full_eq (buf : List Nat) (off cap : Nat) (r : HwResult)
    (n : Nat) (b : List Nat) (h : attempt buf off cap r = (.Full n, b)) :
    n = cap ∧ 0 < n := by
  cases r with
  | err code => simp [attempt] at h
  | ok m data =>
      simp only [attempt] at h
      split at h
      · simp at h
      · split at h
        · simp at h
        · split at h
          · rename_i h1 h2 h3
            obtain ⟨rfl, rfl⟩ := by simpa using h
            exact ⟨h3, Nat.pos_of_ne_zero h2⟩
          · simp at h

theorem attempt_partial_bounds (buf : List Nat) (off cap : Nat)
    (r : HwResult) (n : Nat) (b : List Nat)
    (h : attempt buf off cap r = (.Partial n, b)) : 0 < n ∧ n < cap := by
  cases r with
  | err code => simp [attempt] at h
  | ok m data =>
      simp only [attempt] at h
      split at h
      · simp at h
      · split at h
        · simp at h
        · split at h
          · simp at h
          · rename_i h1 h2 h3
            obtain ⟨rfl, rfl⟩ := by simpa using h
            exact ⟨Nat.pos_of_ne_zero h2,
              lt_of_le_of_ne (Nat.le_of_not_lt h1) h3⟩

/-- Modelled from the spec: the BlockingFill retry loop.  While the buffer
is not yet full, call the non-blocking attempt on the remaining capacity;
advance on Full/Partial (resetting the consecutive-empty counter), count
consecutive Empty outcomes against the retry budget (RetryExhausted once
the counter would exceed it), and abort immediately on HardwareFailure. -/
def fillLoop (hw : Nat → HwResult) (budget bufSize : Nat) (buf : List Nat)
    (written emptyCount idx calls : Nat) : LoopResult :=
  if _hlt : written < bufSize then
    match ha : attempt buf written (bufSize - written) (hw idx) with
    | (.HardwareFailure code, b) => ⟨.HardwareFailure code, b, written, calls + 1⟩
    | (.Empty, b) =>
        if budget ≤ emptyCount then ⟨.RetryExhausted, b, written, calls + 1⟩
        else fillLoop hw budget bufSize b written (emptyCount + 1) (idx + 1) (calls + 1)
    | (.Full n, b) => fillLoop hw budget bufSize b (written + n) 0 (idx + 1) (calls + 1)
    | (.Partial n, b) => fillLoop hw budget bufSize b (written + n) 0 (idx + 1) (calls + 1)
  else ⟨.Success, buf, written, calls⟩
termination_by (bufSize - written, budget + 1 - emptyCount)
decreasing_by
  · apply Prod.Lex.right
    omega
  · apply Prod.Lex.left
    have := attempt_full_eq _ _ _ _ _ _ ha
    omega
  · apply Prod.Lex.left
    have := attempt_partial_bounds _ _ _ _ _ _ ha
    omega

/-- Result of the public blocking fill: status, buffer, bytes written,
hardware fetches performed, and the lifecycle state after the call. -/
structure BlockingResult where
  status : Status
  buf : List Nat
  written : Nat
  calls : Nat
  finalState : ServiceState
deriving DecidableEq, Repr

/-- Modelled from the spec: pal_plat_osRandomBuffer_blocking
(RandomBlocking).  Fails with NotInitialized unless the service is Ready;
a zero-size request is a no-op success with zero hardware calls; otherwise
runs the retry loop from a fresh fill request.  The lifecycle state is
never modified by a fill. -/
def RandomBlocking (hw : Nat → HwResult) (budget : Nat) (st : ServiceState)
    (buf : List Nat) (bufSize : Nat) : BlockingResult :=
  if st = ServiceState.Ready then
    if bufSize = 0 then ⟨.Success, buf, 0, 0, st⟩
    else
      let r := fillLoop hw budget bufSize buf 0 0 0 0
      ⟨r.status, r.buf, r.written, r.calls, st⟩
  else ⟨.NotInitialized, buf, 0, 0, st⟩

/-- Modelled from the spec: pal_plat_osRandomBuffer (RandomNonBlocking).
One attempt against a single hardware response: Success with the full
count, PAL_ERR_RTOS_TRNG_PARTIAL_DATA with the partial count, Empty with
zero, or the hardware failure.  Returns (status, buffer, actualSize). -/
def RandomNonBlocking (st : ServiceState) (buf : List Nat) (bufSize : Nat)
    (r : HwResult) : Status × List Nat × Nat :=
  if st = ServiceState.Ready then
    if bufSize = 0 then (.Success, buf, 0)
    else
      match attempt buf 0 bufSize r with
      | (.Full n, b) => (.Success, b, n)
      | (.Partial n, b) => (.PartialData, b, n)
      | (.Empty, b) => (.Empty, b, 0)
      | (.HardwareFailure code, b) => (.HardwareFailure code, b, 0)
  else (.NotInitialized, buf, 0)

/-- The lifecycle-governed service: its state and a count of the
hardware-adjacent resources it currently holds. -/
structure Service where
  state : ServiceState
  held : Nat
deriving DecidableEq, Repr

/-- Index of the first failing setup step, if any. -/
def firstFailIdx : List Bool → Option Nat
  | [] => none
  | b :: rest => if b then (firstFailIdx rest).map (· + 1) else some 0

/-- Result of Init: status, the service afterwards, and how many setup
operations were performed. -/
structure InitResult where
  status : Status
  service : Service
  setupCalls : Nat
deriving DecidableEq, Repr

/-- Modelled from the spec: pal_plat_DRBGInit (EntropyLifecycle.init).
The hardware-adjacent setup is a list of steps each of which may fail.
Idempotent success when already Ready (no re-initialization); failure
after Destroyed (no resurrection); from Uninitialized it runs the steps in
order, stopping at the first failure, rolling back partial setup and
returning PAL_ERR_CREATION_FAILED, or transitioning to Ready when every
step succeeds. -/
def Init (s : Service) (steps : List Bool) : InitResult :=
  match s.state with
  | .Ready => ⟨.Success, s, 0⟩
  | .Destroyed => ⟨.CreationFailed, s, 0⟩
  | .Uninitialized =>
      match firstFailIdx steps with
      | none => ⟨.Success, ⟨.Ready, steps.length⟩, steps.length⟩
      | some i => ⟨.CreationFailed, ⟨.Uninitialized, 0⟩, i + 1⟩

/-- Modelled from the spec: pal_plat_DRBGDestroy (EntropyLifecycle.destroy).
Releases the resources and transitions to Destroyed when Ready; a no-op
success from Uninitialized or Destroyed. -/
def Destroy (s : Service) : Status × Service :=
  match s.state with
  | .Ready => (.Success, ⟨.Destroyed, 0⟩)
  | _ => (.Success, s)

/-- A scripted hardware trace: the k-th fetch gets the k-th entry of the
list, and an empty response once the script runs out. -/
def hwScript (rs : List HwResult) (k : Nat) : HwResult :=
  rs.getD k (.ok 0 [])

end EntropyService

namespace EntropyService

theorem writeAt_length (buf : List Nat) (off : Nat) (chunk : List Nat)
    (h : off + chunk.length ≤ buf.length) :
    (writeAt buf off chunk).length = buf.length := by
  simp only [writeAt, List.length_append, List.length_take, List.length_drop]
  omega

theorem fillLoop_done (hw : Nat → HwResult) (budget bufSize : Nat)
    (buf : List Nat) (written emptyCount idx calls : Nat)
    (h : ¬ written < bufSize) :
    fillLoop hw budget bufSize buf written emptyCount idx calls
      = ⟨Status.Success, buf, written, calls⟩ := by
  rw [fillLoop]
  simp [h]

theorem fillLoop_err (hw : Nat → HwResult) (budget bufSize : Nat)
    (buf : List Nat) (written emptyCount idx calls : Nat) (code : Int)
    (b : List Nat) (h : written < bufSize)
    (ha : attempt buf written (bufSize - written) (hw idx)
      = (FetchOutcome.HardwareFailure code, b)) :
    fillLoop hw budget bufSize buf written emptyCount idx calls
      = ⟨Status.HardwareFailure code, b, written, calls + 1⟩ := by
  rw [fillLoop]
  simp only [h, dite_true, dif_pos]
  split
  all_goals simp_all

end EntropyService

namespace EntropyService

theorem fillLoop_empty_stop (hw : Nat → HwResult) (budget bufSize : Nat)
    (buf : List Nat) (written emptyCount idx calls : Nat)
    (b : List Nat) (h : written < bufSize)
    (ha : attempt buf written (bufSize - written) (hw idx)
      = (FetchOutcome.Empty, b))
    (hb : budget ≤ emptyCount) :
    fillLoop hw budget bufSize buf written emptyCount idx calls
      = ⟨Status.RetryExhausted, b, written, calls + 1⟩ := by
  rw [fillLoop]
  simp only [h, dite_true, dif_pos]
  split
  all_goals simp_all

theorem fillLoop_empty_retry (hw : Nat → HwResult) (budget bufSize : Nat)
    (buf : List Nat) (written emptyCount idx calls : Nat)
    (b : List Nat) (h : written < bufSize)
    (ha : attempt buf written (bufSize - written) (hw idx)
      = (FetchOutcome.Empty, b))
    (hb : ¬ budget ≤ emptyCount) :
    fillLoop hw budget bufSize buf written emptyCount idx calls
      = fillLoop hw budget bufSize b written (emptyCount + 1) (idx + 1) (calls + 1) := by
  rw [fillLoop]
  simp only [h, dite_true, dif_pos]
  split
  all_goals simp_all

theorem fillLoop_full (hw : Nat → HwResult) (budget bufSize : Nat)
    (buf : List Nat) (written emptyCount idx calls : Nat) (n : Nat)
    (b : List Nat) (h : written < bufSize)
    (ha : attempt buf written (bufSize - written) (hw idx)
      = (FetchOutcome.Full n, b)) :
    fillLoop hw budget bufSize buf written emptyCount idx calls
      = fillLoop hw budget bufSize b (written + n) 0 (idx + 1) (calls + 1) := by
  rw [fillLoop]
  simp only [h, dite_true, dif_pos]
  split
  all_goals simp_all

theorem fillLoop_stepPartial (hw : Nat → HwResult) (budget bufSize : Nat)
    (buf : List Nat) (written emptyCount idx calls : Nat) (n : Nat)
    (b : List Nat) (h : written < bufSize)
    (ha : attempt buf written (bufSize - written) (hw idx)
      = (FetchOutcome.Partial n, b)) :
    fillLoop hw budget bufSize buf written emptyCount idx calls
      = fillLoop hw budget bufSize b (written + n) 0 (idx + 1) (calls + 1) := by
  rw [fillLoop]
  simp only [h, dite_true, dif_pos]
  split
  all_goals simp_all

theorem fillLoop_invariant (hw : Nat → HwResult) (budget bufSize : Nat)
    (buf : List Nat) (written emptyCount idx calls : Nat)
    (hle : written ≤ bufSize) :
    written ≤ (fillLoop hw budget bufSize buf written emptyCount idx calls).written ∧
    (fillLoop hw budget bufSize buf written emptyCount idx calls).written ≤ bufSize ∧
    ((fillLoop hw budget bufSize buf written emptyCount idx calls).status = Status.Success ↔
      (fillLoop hw budget bufSize buf written emptyCount idx calls).written = bufSize) := by
  induction buf, written, emptyCount, idx, calls using fillLoop.induct hw budget bufSize with
  | case1 buf written emptyCount idx calls h code b ha =>
      rw [fillLoop_err hw budget bufSize buf written emptyCount idx calls code b h ha]
      simp
      omega
  | case2 buf written emptyCount idx calls h b ha hb =>
      rw [fillLoop_empty_stop hw budget bufSize buf written emptyCount idx calls b h ha hb]
      simp
      omega
  | case3 buf written emptyCount idx calls h b ha hb ih =>
      rw [fillLoop_empty_retry hw budget bufSize buf written emptyCount idx calls b h ha hb]
      exact ih hle
  | case4 buf written emptyCount idx calls h n b ha ih =>
      rw [fillLoop_full hw budget bufSize buf written emptyCount idx calls n b h ha]
      have hn := attempt_full_eq buf written (bufSize - written) (hw idx) n b ha
      obtain ⟨i1, i2, i3⟩ := ih (by omega)
      exact ⟨by omega, i2, i3⟩
  | case5 buf written emptyCount idx calls h n b ha ih =>
      rw [fillLoop_stepPartial hw budget bufSize buf written emptyCount idx calls n b h ha]
      have hn := attempt_partial_bounds buf written (bufSize - written) (hw idx) n b ha
      obtain ⟨i1, i2, i3⟩ := ih (by omega)
      exact ⟨by omega, i2, i3⟩
  | case6 buf written emptyCount idx calls h =>
      rw [fillLoop_done hw budget bufSize buf written emptyCount idx calls h]
      simp
      omega

end EntropyService

namespace EntropyService

theorem attempt_err_eq (buf : List Nat) (off cap : Nat) (code : Int) :
    attempt buf off cap (HwResult.err code) = (FetchOutcome.HardwareFailure code, buf) := rfl

theorem attempt_ok_over (buf : List Nat) (off cap n : Nat) (data : List Nat)
    (h : cap < n) :
    attempt buf off cap (HwResult.ok n data)
      = (FetchOutcome.HardwareFailure contractViolationCode, buf) := by
  simp [attempt, h]

theorem attempt_ok_zero (buf : List Nat) (off cap : Nat) (data : List Nat) :
    attempt buf off cap (HwResult.ok 0 data) = (FetchOutcome.Empty, buf) := by
  simp [attempt]

theorem attempt_ok_full (buf : List Nat) (off cap n : Nat) (data : List Nat)
    (hpos : 0 < n) (hcap : n = cap) :
    attempt buf off cap (HwResult.ok n data)
      = (FetchOutcome.Full n, writeAt buf off (data.take n)) := by
  simp [attempt, hcap]
  omega

theorem attempt_ok_part (buf : List Nat) (off cap n : Nat) (data : List Nat)
    (hpos : 0 < n) (hlt : n < cap) :
    attempt buf off cap (HwResult.ok n data)
      = (FetchOutcome.Partial n, writeAt buf off (data.take n)) := by
  have h1 : ¬ cap < n := by omega
  have h2 : n ≠ 0 := by omega
  have h3 : n ≠ cap := by omega
  simp [attempt, h1, h2, h3]

theorem writeAt_take (buf : List Nat) (off : Nat) (chunk : List Nat)
    (h : off ≤ buf.length) :
    (writeAt buf off chunk).take off = buf.take off := by
  unfold writeAt
  rw [List.append_assoc, List.take_append_of_le_length]
  · rw [List.take_take, Nat.min_self]
  · simp
    omega

theorem writeAt_drop (buf : List Nat) (off m : Nat) (chunk : List Nat)
    (hm : chunk.length ≤ m) (h : off ≤ buf.length) :
    (writeAt buf off chunk).drop (off + m) = buf.drop (off + m) := by
  unfold writeAt
  have hlen : (buf.take off ++ chunk).length = off + chunk.length := by
    simp [List.length_take]
    omega
  have hsplit : off + m = (buf.take off ++ chunk).length + (m - chunk.length) := by
    omega
  rw [hsplit, List.drop_append, List.drop_drop]
  congr 1
  omega

theorem fillLoop_all_empty (hw : Nat → HwResult) (budget bufSize : Nat)
    (buf : List Nat) (written emptyCount idx calls : Nat)
    (hall : ∀ k, hw k = HwResult.ok 0 []) (hlt : written < bufSize) :
    (fillLoop hw budget bufSize buf written emptyCount idx calls).status
      = Status.RetryExhausted := by
  induction buf, written, emptyCount, idx, calls using fillLoop.induct hw budget bufSize with
  | case1 buf written emptyCount idx calls h code b ha =>
      rw [hall idx, attempt_ok_zero] at ha
      simp at ha
  | case2 buf written emptyCount idx calls h b ha hb =>
      rw [fillLoop_empty_stop hw budget bufSize buf written emptyCount idx calls b h ha hb]
  | case3 buf written emptyCount idx calls h b ha hb ih =>
      rw [fillLoop_empty_retry hw budget bufSize buf written emptyCount idx calls b h ha hb]
      exact ih h
  | case4 buf written emptyCount idx calls h n b ha ih =>
      rw [hall idx, attempt_ok_zero] at ha
      simp at ha
  | case5 buf written emptyCount idx calls h n b ha ih =>
      rw [hall idx, attempt_ok_zero] at ha
      simp at ha
  | case6 buf written emptyCount idx calls h =>
      exact absurd hlt h

theorem fillLoop_calls_bound (hw : Nat → HwResult) (budget bufSize : Nat)
    (buf : List Nat) (written emptyCount idx calls : Nat) :
    (fillLoop hw budget bufSize buf written emptyCount idx calls).calls
      ≤ calls + (bufSize - written) * (budget + 2) + (budget + 1 - emptyCount) := by
  induction buf, written, emptyCount, idx, calls using fillLoop.induct hw budget bufSize with
  | case1 buf written emptyCount idx calls h code b ha =>
      rw [fillLoop_err hw budget bufSize buf written emptyCount idx calls code b h ha]
      have hx : budget + 2 ≤ (bufSize - written) * (budget + 2) :=
        Nat.le_mul_of_pos_left _ (by omega)
      show calls + 1 ≤ calls + (bufSize - written) * (budget + 2) + (budget + 1 - emptyCount)
      omega
  | case2 buf written emptyCount idx calls h b ha hb =>
      rw [fillLoop_empty_stop hw budget bufSize buf written emptyCount idx calls b h ha hb]
      have hx : budget + 2 ≤ (bufSize - written) * (budget + 2) :=
        Nat.le_mul_of_pos_left _ (by omega)
      show calls + 1 ≤ calls + (bufSize - written) * (budget + 2) + (budget + 1 - emptyCount)
      omega
  | case3 buf written emptyCount idx calls h b ha hb ih =>
      rw [fillLoop_empty_retry hw budget bufSize buf written emptyCount idx calls b h ha hb]
      omega
  | case4 buf written emptyCount idx calls h n b ha ih =>
      rw [fillLoop_full hw budget bufSize buf written emptyCount idx calls n b h ha]
      have hn := attempt_full_eq buf written (bufSize - written) (hw idx) n b ha
      have hsub : bufSize - (written + n) = bufSize - written - n := by omega
      rw [hsub] at ih
      have hsplit : (bufSize - written) * (budget + 2)
          = (bufSize - written - n) * (budget + 2) + n * (budget + 2) := by
        rw [← Nat.add_mul]
        congr 1
        omega
      have hx : budget + 2 ≤ n * (budget + 2) :=
        Nat.le_mul_of_pos_left _ (by omega)
      omega
  | case5 buf written emptyCount idx calls h n b ha ih =>
      rw [fillLoop_stepPartial hw budget bufSize buf written emptyCount idx calls n b h ha]
      have hn := attempt_partial_bounds buf written (bufSize - written) (hw idx) n b ha
      have hsub : bufSize - (written + n) = bufSize - written - n := by omega
      rw [hsub] at ih
      have hsplit : (bufSize - written) * (budget + 2)
          = (bufSize - written - n) * (budget + 2) + n * (budget + 2) := by
        rw [← Nat.add_mul]
        congr 1
        omega
      have hx : budget + 2 ≤ n * (budget + 2) :=
        Nat.le_mul_of_pos_left _ (by omega)
      omega
  | case6 buf written emptyCount idx calls h =>
      rw [fillLoop_done hw budget bufSize buf written emptyCount idx calls h]
      show calls ≤ calls + (bufSize - written) * (budget + 2) + (budget + 1 - emptyCount)
      omega

end EntropyService

namespace EntropyService

theorem RandomNonBlocking_err (buf : List Nat) (bufSize : Nat) (code : Int)
    (hne : bufSize ≠ 0) :
    RandomNonBlocking ServiceState.Ready buf bufSize (HwResult.err code)
      = (Status.HardwareFailure code, buf, 0) := by
  simp [RandomNonBlocking, hne, attempt_err_eq]

theorem RandomNonBlocking_empty (buf : List Nat) (bufSize : Nat)
    (data : List Nat) (hne : bufSize ≠ 0) :
    RandomNonBlocking ServiceState.Ready buf bufSize (HwResult.ok 0 data)
      = (Status.Empty, buf, 0) := by
  simp [RandomNonBlocking, hne, attempt_ok_zero]

theorem RandomNonBlocking_over (buf : List Nat) (bufSize n : Nat)
    (data : List Nat) (hover : bufSize < n) (hne : bufSize ≠ 0) :
    RandomNonBlocking ServiceState.Ready buf bufSize (HwResult.ok n data)
      = (Status.HardwareFailure contractViolationCode, buf, 0) := by
  simp [RandomNonBlocking, hne, attempt_ok_over buf 0 bufSize n data hover]

theorem RandomNonBlocking_full (buf : List Nat) (bufSize n : Nat)
    (data : List Nat) (hpos : 0 < n) (hcap : n = bufSize) :
    RandomNonBlocking ServiceState.Ready buf bufSize (HwResult.ok n data)
      = (Status.Success, writeAt buf 0 (data.take n), n) := by
  have hne : bufSize ≠ 0 := by omega
  simp [RandomNonBlocking, hne, attempt_ok_full buf 0 bufSize n data hpos hcap]

theorem RandomNonBlocking_part (buf : List Nat) (bufSize n : Nat)
    (data : List Nat) (hpos : 0 < n) (hlt : n < bufSize) :
    RandomNonBlocking ServiceState.Ready buf bufSize (HwResult.ok n data)
      = (Status.PartialData, writeAt buf 0 (data.take n), n) := by
  have hne : bufSize ≠ 0 := by omega
  simp [RandomNonBlocking, hne, attempt_ok_part buf 0 bufSize n data hpos hlt]

end EntropyService

namespace EntropyService

/-- Claim C1: for every buffer and requested size, the blocking fill's
written count only ever increases and never exceeds the requested size,
and the blocking fill returns success exactly when the written count
equals the requested size (so any failure leaves the buffer short of a
full fill and its contents must not be trusted as random data). -/
theorem C1_blocking_success_iff_exact_fill
    (hw : Nat → HwResult) (budget bufSize : Nat) (buf : List Nat)
    (written emptyCount idx calls : Nat) (hle : written ≤ bufSize) :
    (written ≤ (fillLoop hw budget bufSize buf written emptyCount idx calls).written ∧
     (fillLoop hw budget bufSize buf written emptyCount idx calls).written ≤ bufSize) ∧
    ((RandomBlocking hw budget ServiceState.Ready buf bufSize).status = Status.Success ↔
     (RandomBlocking hw budget ServiceState.Ready buf bufSize).written = bufSize) := by
  refine ⟨⟨(fillLoop_invariant hw budget bufSize buf written emptyCount idx calls hle).1,
    (fillLoop_invariant hw budget bufSize buf written emptyCount idx calls hle).2.1⟩, ?_⟩
  by_cases h0 : bufSize = 0
  · subst h0
    simp [RandomBlocking]
  · have hinv := fillLoop_invariant hw budget bufSize buf 0 0 0 0 (Nat.zero_le _)
    simp only [RandomBlocking, if_pos rfl, if_neg h0]
    exact hinv.2.2

theorem C1_witness :
    (0 ≤ (fillLoop (hwScript [HwResult.ok 1 [7]]) 0 1 [0] 0 0 0 0).written ∧
     (fillLoop (hwScript [HwResult.ok 1 [7]]) 0 1 [0] 0 0 0 0).written ≤ 1) ∧
    ((RandomBlocking (hwScript [HwResult.ok 1 [7]]) 0 ServiceState.Ready [0] 1).status
        = Status.Success ↔
     (RandomBlocking (hwScript [HwResult.ok 1 [7]]) 0 ServiceState.Ready [0] 1).written = 1) :=
  C1_blocking_success_iff_exact_fill (hwScript [HwResult.ok 1 [7]]) 0 1 [0] 0 0 0 0
    (by decide)

/-- Claim C2: in the Ready state, a blocking fill request for zero bytes is
a no-op success: it returns success, performs zero hardware fetches, and
leaves the destination buffer and the lifecycle state unchanged. -/
theorem C2_zero_size_noop_success (hw : Nat → HwResult) (budget : Nat)
    (buf : List Nat) :
    RandomBlocking hw budget ServiceState.Ready buf 0
      = ⟨Status.Success, buf, 0, 0, ServiceState.Ready⟩ := by
  simp [RandomBlocking]

/-- Claim C3: whenever the hardware fetch reached by the blocking fill
reports an error code, the loop aborts immediately with that HardwareFailure
status (never success), no matter how many bytes were already accumulated,
and a blocking fill never modifies the lifecycle state, so the service
stays Ready for future requests. -/
theorem C3_hardware_failure_aborts
    (hw : Nat → HwResult) (budget bufSize : Nat) (buf : List Nat)
    (written emptyCount idx calls : Nat) (code : Int)
    (herr : hw idx = HwResult.err code) (hlt : written < bufSize) :
    fillLoop hw budget bufSize buf written emptyCount idx calls
        = ⟨Status.HardwareFailure code, buf, written, calls + 1⟩ ∧
    (∀ (st : ServiceState) (b2 : List Nat) (s2 : Nat),
        (RandomBlocking hw budget st b2 s2).finalState = st) := by
  constructor
  · apply fillLoop_err hw budget bufSize buf written emptyCount idx calls code buf hlt
    rw [herr]
    exact attempt_err_eq buf written (bufSize - written) code
  · intro st b2 s2
    unfold RandomBlocking
    split_ifs <;> rfl

theorem C3_witness :
    fillLoop (hwScript [HwResult.err 5]) 0 4 [0, 0, 0, 0] 0 0 0 0
        = ⟨Status.HardwareFailure 5, [0, 0, 0, 0], 0, 1⟩ ∧
    (∀ (st : ServiceState) (b2 : List Nat) (s2 : Nat),
        (RandomBlocking (hwScript [HwResult.err 5]) 0 st b2 s2).finalState = st) :=
  C3_hardware_failure_aborts (hwScript [HwResult.err 5]) 0 4 [0, 0, 0, 0] 0 0 0 0 5
    rfl (by decide)

/-- Claim C6: the lifecycle state machine: init when already Ready succeeds
with zero setup operations (idempotent, no hardware re-initialization);
init after Destroyed fails; destroy from Uninitialized or Destroyed is a
no-op success; and both fill operations fail with NotInitialized in any
state other than Ready. -/
theorem C6_lifecycle_state_machine :
    (∀ (h : Nat) (steps : List Bool),
        Init ⟨ServiceState.Ready, h⟩ steps
          = ⟨Status.Success, ⟨ServiceState.Ready, h⟩, 0⟩) ∧
    (∀ (h : Nat) (steps : List Bool),
        (Init ⟨ServiceState.Destroyed, h⟩ steps).status = Status.CreationFailed) ∧
    (∀ h : Nat,
        Destroy ⟨ServiceState.Uninitialized, h⟩
          = (Status.Success, ⟨ServiceState.Uninitialized, h⟩) ∧
        Destroy ⟨ServiceState.Destroyed, h⟩
          = (Status.Success, ⟨ServiceState.Destroyed, h⟩)) ∧
    (∀ (hw : Nat → HwResult) (budget : Nat) (st : ServiceState)
        (buf : List Nat) (bufSize : Nat), st ≠ ServiceState.Ready →
        (RandomBlocking hw budget st buf bufSize).status = Status.NotInitialized) ∧
    (∀ (st : ServiceState) (buf : List Nat) (bufSize : Nat) (r : HwResult),
        st ≠ ServiceState.Ready →
        (RandomNonBlocking st buf bufSize r).1 = Status.NotInitialized) := by
  refine ⟨fun h steps => rfl, fun h steps => rfl, fun h => ⟨rfl, rfl⟩, ?_, ?_⟩
  · intro hw budget st buf bufSize hst
    simp [RandomBlocking, hst]
  · intro st buf bufSize r hst
    simp [RandomNonBlocking, hst]

theorem C6_witness :
    (RandomBlocking (hwScript []) 0 ServiceState.Uninitialized [] 3).status
      = Status.NotInitialized :=
  C6_lifecycle_state_machine.2.2.2.1 (hwScript []) 0 ServiceState.Uninitialized [] 3
    (by decide)

/-- Claim C7: init from Uninitialized is atomic: if any setup step fails,
the performed steps are rolled back (no resources stay held), the state
remains Uninitialized, and the creation-failed error is returned; the
status is success, and the state becomes Ready, exactly when every setup
step succeeds. -/
theorem C7_init_atomic_rollback (steps : List Bool) :
    (∀ i : Nat, firstFailIdx steps = some i →
        Init ⟨ServiceState.Uninitialized, 0⟩ steps
          = ⟨Status.CreationFailed, ⟨ServiceState.Uninitialized, 0⟩, i + 1⟩) ∧
    ((Init ⟨ServiceState.Uninitialized, 0⟩ steps).status = Status.Success ↔
        firstFailIdx steps = none) ∧
    ((Init ⟨ServiceState.Uninitialized, 0⟩ steps).service.state = ServiceState.Ready ↔
        firstFailIdx steps = none) := by
  cases hf : firstFailIdx steps with
  | none =>
      refine ⟨?_, by simp [Init, hf], by simp [Init, hf]⟩
      intro j hj
      exact Option.noConfusion hj
  | some i =>
      refine ⟨?_, by simp [Init, hf], by simp [Init, hf]⟩
      intro j hj
      injection hj with hij
      subst hij
      simp [Init, hf]

theorem C7_witness :
    Init ⟨ServiceState.Uninitialized, 0⟩ [true, false]
      = ⟨Status.CreationFailed, ⟨ServiceState.Uninitialized, 0⟩, 2⟩ :=
  (C7_init_atomic_rollback [true, false]).1 1 (by decide)

/-- Claim C8: the retry-exhausted error is a distinct status from every
hardware-failure status; an Empty outcome within the retry budget is
absorbed (the consecutive-empty counter is incremented and the loop
retries, surfacing no error at that step); and a hardware source that
reports empty on every fetch drives the blocking fill to the
RetryExhausted error. -/
theorem C8_retry_exhausted_distinct
    (hw : Nat → HwResult) (budget bufSize : Nat) (buf : List Nat)
    (written emptyCount idx calls : Nat) (data : List Nat) :
    (∀ code : Int, Status.RetryExhausted ≠ Status.HardwareFailure code) ∧
    (hw idx = HwResult.ok 0 data → written < bufSize → emptyCount < budget →
        fillLoop hw budget bufSize buf written emptyCount idx calls
          = fillLoop hw budget bufSize buf written (emptyCount + 1) (idx + 1) (calls + 1)) ∧
    ((∀ k, hw k = HwResult.ok 0 []) → 0 < bufSize →
        (RandomBlocking hw budget ServiceState.Ready buf bufSize).status
          = Status.RetryExhausted) := by
  refine ⟨?_, ?_, ?_⟩
  · intro code h
    cases h
  · intro h1 h2 h3
    apply fillLoop_empty_retry hw budget bufSize buf written emptyCount idx calls buf h2
    · rw [h1, attempt_ok_zero]
    · omega
  · intro hall hpos
    have h0 : bufSize ≠ 0 := by omega
    simp only [RandomBlocking, if_pos rfl, if_neg h0]
    exact fillLoop_all_empty hw budget bufSize buf 0 0 0 0 hall hpos

theorem C8_witness :
    (RandomBlocking (hwScript []) 2 ServiceState.Ready [0, 0] 2).status
      = Status.RetryExhausted :=
  (C8_retry_exhausted_distinct (hwScript []) 2 2 [0, 0] 0 0 0 0 []).2.2
    (fun _ => rfl) (by decide)

/-- Claim C9: every blocking fill terminates after finitely many hardware
fetches: the retry loop performs at most
(remaining bytes) * (budget + 2) + (budget + 1) fetches from any
configuration, because data outcomes strictly increase the written count,
empty outcomes are bounded by the retry budget, and a hardware failure
aborts at once; in particular a whole blocking fill never exceeds
bufSize * (budget + 2) + (budget + 1) hardware calls. -/
theorem C9_blocking_fill_terminates
    (hw : Nat → HwResult) (budget bufSize : Nat) (buf : List Nat)
    (written emptyCount idx calls : Nat) :
    ((fillLoop hw budget bufSize buf written emptyCount idx calls).calls
        ≤ calls + (bufSize - written) * (budget + 2) + (budget + 1 - emptyCount)) ∧
    (∀ st : ServiceState,
        (RandomBlocking hw budget st buf bufSize).calls
          ≤ bufSize * (budget + 2) + (budget + 1)) := by
  refine ⟨fillLoop_calls_bound hw budget bufSize buf written emptyCount idx calls, ?_⟩
  intro st
  unfold RandomBlocking
  split_ifs with h1 h2
  · simp
  · have hb := fillLoop_calls_bound hw budget bufSize buf 0 0 0 0
    simp only [Nat.sub_zero, Nat.zero_add, Nat.add_zero] at hb
    show (fillLoop hw budget bufSize buf 0 0 0 0).calls
      ≤ bufSize * (budget + 2) + (budget + 1)
    omega
  · simp

end EntropyService

namespace EntropyService

/-- Claim C4: in the Ready state, for a positive request the non-blocking
fill returns success exactly when the actual size equals the requested
size, returns the distinguished partial-data status exactly when the
actual size is strictly between zero and the requested size (with those
bytes written into the destination), and returns the hardware-failure
status carrying the code whenever the hardware reports an error. -/
theorem C4_nonblocking_classification
    (buf : List Nat) (bufSize : Nat) (r : HwResult) (hbs : 0 < bufSize) :
    ((RandomNonBlocking ServiceState.Ready buf bufSize r).1 = Status.Success ↔
      (RandomNonBlocking ServiceState.Ready buf bufSize r).2.2 = bufSize) ∧
    ((RandomNonBlocking ServiceState.Ready buf bufSize r).1 = Status.PartialData ↔
      0 < (RandomNonBlocking ServiceState.Ready buf bufSize r).2.2 ∧
      (RandomNonBlocking ServiceState.Ready buf bufSize r).2.2 < bufSize) ∧
    (∀ code : Int, r = HwResult.err code →
      (RandomNonBlocking ServiceState.Ready buf bufSize r).1
        = Status.HardwareFailure code) ∧
    (∀ (n : Nat) (data : List Nat), r = HwResult.ok n data → 0 < n → n < bufSize →
      (RandomNonBlocking ServiceState.Ready buf bufSize r).1 = Status.PartialData ∧
      (RandomNonBlocking ServiceState.Ready buf bufSize r).2.1
        = writeAt buf 0 (data.take n) ∧
      (RandomNonBlocking ServiceState.Ready buf bufSize r).2.2 = n) := by
  cases r with
  | err code =>
      rw [RandomNonBlocking_err buf bufSize code (by omega)]
      refine ⟨?_, by simp, ?_, ?_⟩
      · simp
        omega
      · intro c hc
        injection hc with h1
        subst h1
        rfl
      · intro n data hc
        exact HwResult.noConfusion hc
  | ok n data =>
      by_cases hn0 : n = 0
      · subst hn0
        rw [RandomNonBlocking_empty buf bufSize data (by omega)]
        refine ⟨?_, by simp, ?_, ?_⟩
        · simp
          omega
        · intro c hc
          exact HwResult.noConfusion hc
        · intro m d2 hc hm0 hmlt
          injection hc with h1 h2
          omega
      · by_cases hcap : n = bufSize
        · rw [RandomNonBlocking_full buf bufSize n data (by omega) hcap]
          refine ⟨by simp [hcap], ?_, ?_, ?_⟩
          · simp
            omega
          · intro c hc
            exact HwResult.noConfusion hc
          · intro m d2 hc hm0 hmlt
            injection hc with h1 h2
            omega
        · by_cases hover : bufSize < n
          · rw [RandomNonBlocking_over buf bufSize n data hover (by omega)]
            refine ⟨?_, by simp, ?_, ?_⟩
            · simp
              omega
            · intro c hc
              exact HwResult.noConfusion hc
            · intro m d2 hc hm0 hmlt
              injection hc with h1 h2
              omega
          · rw [RandomNonBlocking_part buf bufSize n data (by omega) (by omega)]
            refine ⟨?_, ?_, ?_, ?_⟩
            · simp
              omega
            · simp
              omega
            · intro c hc
              exact HwResult.noConfusion hc
            · intro m d2 hc hm0 hmlt
              injection hc with h1 h2
              subst h1
              subst h2
              exact ⟨rfl, rfl, rfl⟩

theorem C4_witness :
    (RandomNonBlocking ServiceState.Ready [0, 0, 0] 3 (HwResult.ok 2 [7, 7])).1
        = Status.PartialData ∧
    (RandomNonBlocking ServiceState.Ready [0, 0, 0] 3 (HwResult.ok 2 [7, 7])).2.2 = 2 :=
  ⟨((C4_nonblocking_classification [0, 0, 0] 3 (HwResult.ok 2 [7, 7]) (by decide)).2.2.2
      2 [7, 7] rfl (by decide) (by decide)).1,
   ((C4_nonblocking_classification [0, 0, 0] 3 (HwResult.ok 2 [7, 7]) (by decide)).2.2.2
      2 [7, 7] rfl (by decide) (by decide)).2.2⟩

/-- Claim C5: one non-blocking attempt consumes exactly one hardware fetch
(the next fetch index advances by one, with no internal retry); when the
hardware reports more bytes than the remaining capacity the attempt is the
contract-violation HardwareFailure with the buffer untouched, never a
truncated acceptance; and when the reported count fits, writing is
confined to destination[offset .. offset+n): the buffer keeps its length
and is unchanged before the offset and from offset+n on. -/
theorem C5_attempt_single_fetch_clamped
    (hw : Nat → HwResult) (idx : Nat) (buf : List Nat) (off cap : Nat) :
    ((attemptAt hw idx buf off cap).2.2 = idx + 1) ∧
    (∀ (n : Nat) (data : List Nat), hw idx = HwResult.ok n data → cap < n →
        attemptAt hw idx buf off cap
          = (FetchOutcome.HardwareFailure contractViolationCode, buf, idx + 1)) ∧
    (∀ (n : Nat) (data : List Nat), hw idx = HwResult.ok n data → n ≤ cap →
        off + cap ≤ buf.length →
        ((attemptAt hw idx buf off cap).2.1.length = buf.length ∧
         (attemptAt hw idx buf off cap).2.1.take off = buf.take off ∧
         (attemptAt hw idx buf off cap).2.1.drop (off + n) = buf.drop (off + n))) := by
  refine ⟨rfl, ?_, ?_⟩
  · intro n data h hcap
    unfold attemptAt
    rw [h, attempt_ok_over buf off cap n data hcap]
  · intro n data h hle hlen
    unfold attemptAt
    rw [h]
    have hchunk : (data.take n).length ≤ n := by simp
    by_cases hn0 : n = 0
    · subst hn0
      rw [attempt_ok_zero]
      simp
    · by_cases hfull : n = cap
      · rw [attempt_ok_full buf off cap n data (by omega) hfull]
        exact ⟨writeAt_length buf off (data.take n) (by omega),
               writeAt_take buf off (data.take n) (by omega),
               writeAt_drop buf off n (data.take n) hchunk (by omega)⟩
      · rw [attempt_ok_part buf off cap n data (by omega) (by omega)]
        exact ⟨writeAt_length buf off (data.take n) (by omega),
               writeAt_take buf off (data.take n) (by omega),
               writeAt_drop buf off n (data.take n) hchunk (by omega)⟩

theorem C5_witness :
    ((attemptAt (hwScript [HwResult.ok 2 [9, 9]]) 0 [0, 0, 0, 0] 1 2).2.1.length
        = ([0, 0, 0, 0] : List Nat).length ∧
     (attemptAt (hwScript [HwResult.ok 2 [9, 9]]) 0 [0, 0, 0, 0] 1 2).2.1.take 1
        = ([0, 0, 0, 0] : List Nat).take 1 ∧
     (attemptAt (hwScript [HwResult.ok 2 [9, 9]]) 0 [0, 0, 0, 0] 1 2).2.1.drop (1 + 2)
        = ([0, 0, 0, 0] : List Nat).drop (1 + 2)) :=
  (C5_attempt_single_fetch_clamped (hwScript [HwResult.ok 2 [9, 9]]) 0 [0, 0, 0, 0] 1 2).2.2
    2 [9, 9] rfl (by decide) (by decide)

/-- Claim C10: within one blocking fill, bytes are appended in the order
the hardware delivers them: if the hardware reports 5 bytes for the first
fetch of 16 and then 11 bytes for the following fetch of 11, the blocking
fill succeeds in two fetches and the 16-byte buffer is exactly the
in-order concatenation of the two chunks. -/
theorem C10_in_order_concatenation
    (hw : Nat → HwResult) (budget : Nat) (buf d1 d2 : List Nat)
    (hbuf : buf.length = 16)
    (h0 : hw 0 = HwResult.ok 5 d1) (h1 : hw 1 = HwResult.ok 11 d2)
    (hd1 : d1.length = 5) (hd2 : d2.length = 11) :
    RandomBlocking hw budget ServiceState.Ready buf 16
      = ⟨Status.Success, d1 ++ d2, 16, 2, ServiceState.Ready⟩ := by
  have ht1 : d1.take 5 = d1 := by rw [← hd1, List.take_length]
  have ht2 : d2.take 11 = d2 := by rw [← hd2, List.take_length]
  have ha1 : attempt buf 0 (16 - 0) (hw 0)
      = (FetchOutcome.Partial 5, d1 ++ buf.drop 5) := by
    rw [h0]
    have h165 : (16 : Nat) - 0 = 16 := rfl
    rw [h165, attempt_ok_part buf 0 16 5 d1 (by omega) (by omega)]
    unfold writeAt
    rw [ht1, hd1]
    simp
  have hb1 : (d1 ++ buf.drop 5).length = 16 := by
    simp [hd1, hbuf]
  have ha2 : attempt (d1 ++ buf.drop 5) 5 (16 - (0 + 5)) (hw 1)
      = (FetchOutcome.Full 11, d1 ++ d2) := by
    rw [h1]
    have h1611 : (16 : Nat) - (0 + 5) = 11 := rfl
    rw [h1611, attempt_ok_full (d1 ++ buf.drop 5) 5 11 11 d2 (by omega) rfl]
    unfold writeAt
    rw [ht2, hd2]
    have htake : (d1 ++ buf.drop 5).take 5 = d1 := List.take_left' hd1
    have hdrop : (d1 ++ buf.drop 5).drop (5 + 11) = [] := by
      rw [List.drop_eq_nil_iff]
      omega
    rw [htake, hdrop]
    simp
  have hloop : fillLoop hw budget 16 buf 0 0 0 0
      = ⟨Status.Success, d1 ++ d2, 16, 2⟩ := by
    rw [fillLoop_stepPartial hw budget 16 buf 0 0 0 0 5 (d1 ++ buf.drop 5) (by omega) ha1]
    rw [fillLoop_full hw budget 16 (d1 ++ buf.drop 5) (0 + 5) 0 (0 + 1) (0 + 1) 11
      (d1 ++ d2) (by omega) ha2]
    rw [fillLoop_done hw budget 16 (d1 ++ d2) (0 + 5 + 11) 0 (0 + 1 + 1) (0 + 1 + 1)
      (by omega)]
  have h160 : (16 : Nat) ≠ 0 := by omega
  simp only [RandomBlocking, if_pos rfl, if_neg h160, hloop]
  simp

theorem C10_witness :
    RandomBlocking
        (hwScript [HwResult.ok 5 [1, 2, 3, 4, 5],
          HwResult.ok 11 [6, 7, 8, 9, 10, 11, 12, 13, 14, 15, 16]])
        0 ServiceState.Ready (List.replicate 16 0) 16
      = ⟨Status.Success, [1, 2, 3, 4, 5, 6, 7, 8, 9, 10, 11, 12, 13, 14, 15, 16],
          16, 2, ServiceState.Ready⟩ :=
  C10_in_order_concatenation
    (hwScript [HwResult.ok 5 [1, 2, 3, 4, 5],
      HwResult.ok 11 [6, 7, 8, 9, 10, 11, 12, 13, 14, 15, 16]])
    0 (List.replicate 16 0) [1, 2, 3, 4, 5] [6, 7, 8, 9, 10, 11, 12, 13, 14, 15, 16]
    (by decide) rfl rfl (by decide) (by decide)

end EntropyService
